import Mathlib

/-!
Verification development for the Binance EMA / market-breadth scripts.

The repository contains three near-duplicate pipeline scripts and one
rolling-extrema script:

* `final_index.js` (EMA-50/200 variant): fetches daily klines per USDT spot
  symbol, computes padded EMA-50 / EMA-200 series, accumulates per-date
  positive/negative breadth counts and per-symbol rows, writes two CSVs.
* `final_index.js` (EMA-100/200 axios variant): same shape, but the
  per-date breadth update is guarded by `e200 !== null`, and the universe
  resolution step dereferences an undeclared identifier `data`.
* `pct_index.js` (EMA-75/200 variant): per-date accumulator tracks
  `{a75,t75,a200,t200}` with per-indicator denominators.
* `hh_llindex.js`: 90-day higher-high / lower-low flags per symbol, keyed
  by calendar date, aggregated into per-date hh/ll counts.

Prices are modelled as rationals; calendar dates as strings (the scripts
format timestamps with dayjs, which is external, so the formatting function
is passed in explicitly). JavaScript `null` becomes `Option.none`.
-/

abbrev Date := String

/-- One fetched kline bar, as the scripts keep it: open time and close. -/
structure Bar where
  time : Int
  close : ℚ
deriving DecidableEq

/-- JavaScript relational comparison `c > e` where `e` may be `null`:
`null` coerces to `0` in a relational comparison, so `c > null` is `c > 0`. -/
def jsGT (c : ℚ) : Option ℚ → Bool
  | none => decide (0 < c)
  | some e => decide (e < c)

/-- Comparison guarded by an explicit null check, as in
`e !== null && close > e`. -/
def aboveOpt (c : ℚ) : Option ℚ → Bool
  | none => false
  | some e => decide (e < c)

/-- One step of the recursive EMA: `close * k + prev * (1 - k)`. -/
def emaStep (k prev c : ℚ) : ℚ := c * k + prev * (1 - k)

/-- The EMA values after the seed, one per remaining close. -/
def emaScan (k : ℚ) (e : ℚ) : List ℚ → List ℚ
  | [] => []
  | c :: cs => emaStep k e c :: emaScan k (emaStep k e c) cs

/-- Modelled from the spec: `EMA.calculate` of the external
`technicalindicators` package is not part of this repository; per the spec
it seeds with the simple mean of the first `p` closes and then applies
`ema[i] = close[i] * k + ema[i-1] * (1-k)` with `k = 2/(p+1)`, producing
one output per input index from `p-1` on. -/
def emaCalculate (p : ℕ) (values : List ℚ) : List ℚ :=
  if p = 0 ∨ values.length < p then []
  else
    let seed := (values.take p).sum / (p : ℚ)
    seed :: emaScan (2 / ((p : ℚ) + 1)) seed (values.drop p)

/-- `Array(period - 1).fill(null).concat(arr)`: left-pad the EMA output with
nulls so it aligns with the close sequence. -/
def padEMA (arr : List ℚ) (period : ℕ) : List (Option ℚ) :=
  List.replicate (period - 1) none ++ arr.map some

/-- The per-index view the bar loops read: date, close and the two padded
EMA values at that index. -/
structure BarData where
  date : Date
  close : ℚ
  e1 : Option ℚ
  e2 : Option ℚ
deriving DecidableEq

/-- Walk the four arrays in parallel, as the `for (let i = 0; ...)` loops do. -/
def zipBars : List Date → List ℚ → List (Option ℚ) → List (Option ℚ) → List BarData
  | d :: ds, c :: cs, x :: xs, y :: ys => ⟨d, c, x, y⟩ :: zipBars ds cs xs ys
  | _, _, _, _ => []

/-- The shared breadth accumulator of the 50/200 and 100/200 variants:
a JS object mapping a date to its `{pos, neg}` entry. -/
abbrev BMap := Date → Option (ℕ × ℕ)

def emptyB : BMap := fun _ => none

/-- `breadth[d] = breadth[d] || {pos:0, neg:0}; breadth[d][ok ? "pos" : "neg"]++`. -/
def bump (b : BMap) (d : Date) (ok : Bool) : BMap :=
  fun d' =>
    if d' = d then
      let pn := (b d).getD (0, 0)
      some (if ok then (pn.1 + 1, pn.2) else (pn.1, pn.2 + 1))
    else b d'

def applyBumps (l : List (Date × Bool)) (b : BMap) : BMap :=
  l.foldl (fun acc p => bump acc p.1 p.2) b

/-! ## EMA-50/200 variant (`final_index.js`, part_000) -/

/-- One row of `data/ema_values.csv` in the 50/200 variant. -/
structure Row000 where
  symbol : String
  date : Date
  close : ℚ
  ema50 : Option ℚ
  ema200 : Option ℚ
  signal : ℕ
deriving DecidableEq

/-- `const ok = closes[i]>ema50[i] && closes[i]>ema200[i]` — plain JS
comparisons, so a null EMA value compares as `0`. -/
def okFlag000 (bd : BarData) : Bool := jsGT bd.close bd.e1 && jsGT bd.close bd.e2

def row000 (sym : String) (bd : BarData) : Row000 :=
  ⟨sym, bd.date, bd.close, bd.e1, bd.e2, if okFlag000 bd then 1 else 0⟩

/-- The per-bar breadth increments the 50/200 loop performs: one per bar,
never gated on EMA presence. -/
def bumps000 (l : List BarData) : List (Date × Bool) :=
  l.map fun bd => (bd.date, okFlag000 bd)

def barsFor000 (fmt : Int → Date) (kl : List Bar) : List BarData :=
  let closes := kl.map Bar.close
  let dates := kl.map fun x => fmt x.time
  zipBars dates closes (padEMA (emaCalculate 50 closes) 50)
    (padEMA (emaCalculate 200 closes) 200)

/-- One symbol of the 50/200 variant: `if (kl.length < 200) return;` then the
bar loop, pushing one row and one breadth increment per bar. -/
def processSymbol000 (fmt : Int → Date) (sym : String) (kl : List Bar)
    (st : List Row000 × BMap) : List Row000 × BMap :=
  if kl.length < 200 then st
  else
    let bars := barsFor000 fmt kl
    (st.1 ++ bars.map (row000 sym), applyBumps (bumps000 bars) st.2)

def runBatch000 (fmt : Int → Date) (inputs : List (String × List Bar)) :
    List Row000 × BMap :=
  inputs.foldl (fun st p => processSymbol000 fmt p.1 p.2 st) ([], emptyB)

/-- Test fixture: 200 daily bars with constant close 1 at times 0..199. -/
def bars200 : List Bar := (List.range 200).map fun i => ⟨(i : Int), 1⟩

def fmtW : Int → Date := fun t => toString t

/-- Test fixture: 200 bars whose first two fall on the same calendar date. -/
def barsDup : List Bar :=
  ⟨0, 1⟩ :: ⟨0, 1⟩ :: ((List.range 198).map fun i => ⟨(i : Int) + 1, 1⟩)

/-! ## EMA-75/200 variant (`pct_index.js`, part_003) -/

/-- Per-date accumulator entry of the 75/200 variant:
`{ a75, t75, a200, t200 }`. -/
structure B3 where
  a75 : ℕ
  t75 : ℕ
  a200 : ℕ
  t200 : ℕ
deriving DecidableEq

abbrev BMap3 := Date → Option B3

def emptyB3 : BMap3 := fun _ => none

/-- One bar of the 75/200 loop: create the entry if absent, then bump `t75`
and `a75` only when `ema75[i] !== null`, and `t200`/`a200` only when
`ema200[i] !== null`. -/
def bump3 (b : BMap3) (bd : BarData) : BMap3 :=
  fun d' =>
    if d' = bd.date then
      let e := (b bd.date).getD ⟨0, 0, 0, 0⟩
      some ⟨e.a75 + (if aboveOpt bd.close bd.e1 then 1 else 0),
            e.t75 + (if bd.e1.isSome then 1 else 0),
            e.a200 + (if aboveOpt bd.close bd.e2 then 1 else 0),
            e.t200 + (if bd.e2.isSome then 1 else 0)⟩
    else b d'

/-- One row of `ema_values.csv` in the 75/200 variant. -/
structure Row003 where
  symbol : String
  date : Date
  close : ℚ
  ema75 : Option ℚ
  ema200 : Option ℚ
  above75 : Bool
  above200 : Bool
  signal : ℕ
deriving DecidableEq

def row003 (sym : String) (bd : BarData) : Row003 :=
  ⟨sym, bd.date, bd.close, bd.e1, bd.e2, aboveOpt bd.close bd.e1,
    aboveOpt bd.close bd.e2,
    if aboveOpt bd.close bd.e1 && aboveOpt bd.close bd.e2 then 1 else 0⟩

def barsFor003 (fmt : Int → Date) (kl : List Bar) : List BarData :=
  let closes := kl.map Bar.close
  let dates := kl.map fun x => fmt x.time
  zipBars dates closes (padEMA (emaCalculate 75 closes) 75)
    (padEMA (emaCalculate 200 closes) 200)

def processSymbol003 (fmt : Int → Date) (sym : String) (kl : List Bar)
    (st : List Row003 × BMap3) : List Row003 × BMap3 :=
  if kl.length < 200 then st
  else
    let bars := barsFor003 fmt kl
    (st.1 ++ bars.map (row003 sym), bars.foldl bump3 st.2)

def runBatch003 (fmt : Int → Date) (inputs : List (String × List Bar)) :
    List Row003 × BMap3 :=
  inputs.foldl (fun st p => processSymbol003 fmt p.1 p.2 st) ([], emptyB3)

/-- `pos / tot * 100` as the script computes it; `none` models the `NaN`
that JavaScript produces when the denominator `tot` is zero. -/
def pct (a t : ℕ) : Option ℚ := if t = 0 then none else some ((a : ℚ) / (t : ℚ) * 100)

/-- One row of `ema_breadth_pct.csv`: the percentages emitted for a date, if
the date is present in the accumulator at all. -/
structure DailyRow3 where
  date : Date
  pct75 : Option ℚ
  pct200 : Option ℚ
deriving DecidableEq

def rowFor003 (b : BMap3) (d : Date) : Option DailyRow3 :=
  (b d).map fun e => ⟨d, pct e.a75 e.t75, pct e.a200 e.t200⟩

/-- One row of `data/ema_breadth.csv` in the 50/200 variant. -/
structure BreadthRow where
  date : Date
  positive : ℕ
  negative : ℕ
  pos_pct : Option ℚ
  neg_pct : Option ℚ
deriving DecidableEq

def rowFor000 (b : BMap) (d : Date) : Option BreadthRow :=
  (b d).map fun pn => ⟨d, pn.1, pn.2, pct pn.1 (pn.1 + pn.2), pct pn.2 (pn.1 + pn.2)⟩

/-! ## EMA-100/200 variant (`final_index.js` axios variant, part_001) -/

/-- One row of `ema_values.csv` in the 100/200 variant. -/
structure Row001 where
  symbol : String
  date : Date
  close : ℚ
  ema100 : Option ℚ
  ema200 : Option ℚ
  signal : ℕ
deriving DecidableEq

/-- `signal = (e100 !== null && e200 !== null && close > e100 && close > e200) ? 1 : 0`. -/
def row001 (sym : String) (bd : BarData) : Row001 :=
  ⟨sym, bd.date, bd.close, bd.e1, bd.e2,
    if aboveOpt bd.close bd.e1 && aboveOpt bd.close bd.e2 then 1 else 0⟩

/-- The breadth update of the 100/200 loop: performed only under
`if (e200 !== null)`, and inside that guard the comparisons are the plain
JS `close > e100 && close > e200`. -/
def perBarBump001 (bd : BarData) : Option (Date × Bool) :=
  match bd.e2 with
  | none => none
  | some _ => some (bd.date, jsGT bd.close bd.e1 && jsGT bd.close bd.e2)

def barsFor001 (fmt : Int → Date) (kl : List Bar) : List BarData :=
  let closes := kl.map Bar.close
  let dates := kl.map fun x => fmt x.time
  zipBars dates closes (padEMA (emaCalculate 100 closes) 100)
    (padEMA (emaCalculate 200 closes) 200)

def processSymbol001 (fmt : Int → Date) (sym : String) (kl : List Bar)
    (st : List Row001 × BMap) : List Row001 × BMap :=
  if kl.length < 200 then st
  else
    let bars := barsFor001 fmt kl
    (st.1 ++ bars.map (row001 sym), applyBumps (bars.filterMap perBarBump001) st.2)

/-! ## HH/LL rolling-extrema variant (`hh_llindex.js`, part_002) -/

/-- `Math.max(...l)` for the sliding buffer; the script only applies it to a
non-empty buffer, so the empty case is unreachable. -/
def jsMax : List ℚ → ℚ
  | [] => 0
  | x :: xs => xs.foldl max x

def jsMin : List ℚ → ℚ
  | [] => 0
  | x :: xs => xs.foldl min x

/-- The per-index flag computation of `flagHHLLforSymbol`: a FIFO buffer of
the previous `w` closes; below `w` seen closes the flags are false; from then
on the current close is compared against the buffer extremes, then the buffer
slides by one. -/
def hhllFlags (w : ℕ) (window : List ℚ) : List ℚ → List (Bool × Bool)
  | [] => []
  | c :: cs =>
    if window.length < w then
      (false, false) :: hhllFlags w (window ++ [c]) cs
    else
      (decide (jsMax window < c), decide (c < jsMin window))
        :: hhllFlags w (window.tail ++ [c]) cs

/-- Assignment `m[d] = v` on a JS object: overwrite in place if the key
exists, else append the key. -/
def objSet (m : List (Date × Bool)) (d : Date) (v : Bool) : List (Date × Bool) :=
  if m.any fun p => p.1 = d then
    m.map fun p => if p.1 = d then (p.1, v) else p
  else m ++ [(d, v)]

def objSetAll (m : List (Date × Bool)) (l : List (Date × Bool)) : List (Date × Bool) :=
  l.foldl (fun acc p => objSet acc p.1 p.2) m

/-- `flagHHLLforSymbol`: walk the candles computing the per-index flags and
key them by the candle dates, hh and ll separately. -/
def flagHHLLforSymbol (w : ℕ) (candles : List (Date × ℚ)) :
    List (Date × Bool) × List (Date × Bool) :=
  let fl := hhllFlags w [] (candles.map Prod.snd)
  (objSetAll [] ((candles.map Prod.fst).zip (fl.map Prod.fst)),
   objSetAll [] ((candles.map Prod.fst).zip (fl.map Prod.snd)))



/-! ## Error model and top-level run wrappers -/

/-- Error taxonomy: transport and decode failures of the HTTP layer, and the
ReferenceError thrown by evaluating an undeclared identifier. -/
inductive JsError where
  | transport
  | decode
  | referenceError
deriving DecidableEq

/-- One instrument descriptor from `/api/v3/exchangeInfo`. -/
structure SymbolMeta where
  symbol : String
  status : String
  isSpotTradingAllowed : Bool
  quoteAsset : String
deriving DecidableEq

/-- The universe filter shared by all variants: `status === "TRADING" &&
isSpotTradingAllowed && quoteAsset === QUOTE`. -/
def filterSymbols (metas : List SymbolMeta) (quote : String) : List String :=
  (metas.filter fun s =>
      decide (s.status = "TRADING") && s.isSpotTradingAllowed
        && decide (s.quoteAsset = quote)).map SymbolMeta.symbol

/-- Per-instrument `try { ... } catch (err) { console.error(...) }` of the
50/200 variant: a failed fetch leaves the shared state untouched. -/
def processSymbolE000 (fmt : Int → Date) (sym : String)
    (r : Except JsError (List Bar)) (st : List Row000 × BMap) :
    List Row000 × BMap :=
  match r with
  | .error _ => st
  | .ok kl => processSymbol000 fmt sym kl st

def runBatchE000 (fmt : Int → Date)
    (inputs : List (String × Except JsError (List Bar))) : List Row000 × BMap :=
  inputs.foldl (fun st p => processSymbolE000 fmt p.1 p.2 st) ([], emptyB)

/-- The inputs whose fetch succeeded, in order. -/
def successes {α : Type} (inputs : List (String × Except JsError α)) :
    List (String × α) :=
  inputs.filterMap fun p =>
    match p.2 with
    | .ok kl => some (p.1, kl)
    | .error _ => none

def processSymbolE003 (fmt : Int → Date) (sym : String)
    (r : Except JsError (List Bar)) (st : List Row003 × BMap3) :
    List Row003 × BMap3 :=
  match r with
  | .error _ => st
  | .ok kl => processSymbol003 fmt sym kl st

def runBatchE003 (fmt : Int → Date)
    (inputs : List (String × Except JsError (List Bar))) : List Row003 × BMap3 :=
  inputs.foldl (fun st p => processSymbolE003 fmt p.1 p.2 st) ([], emptyB3)

def processSymbolE001 (fmt : Int → Date) (sym : String)
    (r : Except JsError (List Bar)) (st : List Row001 × BMap) :
    List Row001 × BMap :=
  match r with
  | .error _ => st
  | .ok kl => processSymbol001 fmt sym kl st

def runBatchE001 (fmt : Int → Date)
    (inputs : List (String × Except JsError (List Bar))) : List Row001 × BMap :=
  inputs.foldl (fun st p => processSymbolE001 fmt p.1 p.2 st) ([], emptyB)

/-- Observable outcome of one whole run: the exit code, the output files
written, the symbols the per-instrument stage was run for, the detail rows
produced, and the error the fatal handler saw, if any. -/
structure RunResult (ρ : Type) where
  exitCode : ℕ
  filesWritten : List String
  instrumentsProcessed : List String
  detailRows : List ρ
  err : Option JsError

/-- Top level of `pct_index.js`: the IIFE awaits `exchangeInfo` first; any
throw there reaches the final `.catch`, which logs and calls
`process.exit(1)` before any per-instrument work or file write. On success
the batch runs under the per-instrument catch and both CSVs are written. -/
def main003 (fmt : Int → Date) (exInfo : Except JsError (List SymbolMeta))
    (fetch : String → Except JsError (List Bar)) : RunResult Row003 :=
  match exInfo with
  | .error e => ⟨1, [], [], [], some e⟩
  | .ok metas =>
    let symbols := filterSymbols metas "USDT"
    let st := runBatchE003 fmt (symbols.map fun s => (s, fetch s))
    ⟨0, ["ema_breadth_pct.csv", "ema_values.csv"], symbols, st.1, none⟩

/-- Models the statement `if (!Array.isArray(data))` right after the
`exchangeInfo` fetch in the 100/200 variant: `data` is not declared anywhere
in that script, so evaluating the condition throws a ReferenceError. -/
def evalUndefinedData : Except JsError Bool := .error .referenceError

/-- Top level of the 100/200 `final_index.js`: after the `exchangeInfo`
fetch the script evaluates the undeclared identifier `data`; the resulting
ReferenceError reaches the final `.catch`, which exits with code 1. The
remaining pipeline (universe filter, batch, CSV writes) is the code after
that statement, reachable only if that evaluation were to succeed. -/
def main001 (fmt : Int → Date) (exInfo : Except JsError (List SymbolMeta))
    (fetch : String → Except JsError (List Bar)) : RunResult Row001 :=
  match exInfo with
  | .error e => ⟨1, [], [], [], some e⟩
  | .ok metas =>
    match evalUndefinedData with
    | .error e => ⟨1, [], [], [], some e⟩
    | .ok _ =>
      let symbols := filterSymbols metas "USDT"
      let st := runBatchE001 fmt (symbols.map fun s => (s, fetch s))
      ⟨0, ["ema_breadth.csv", "ema_values.csv"], symbols, st.1, none⟩

/-! ## Helper lemmas: EMA series shape -/

theorem emaScan_length (k e : ℚ) (cs : List ℚ) :
    (emaScan k e cs).length = cs.length := by
  induction cs generalizing e with
  | nil => rfl
  | cons c cs ih => simp [emaScan, ih]

theorem emaScan_getElem? (k : ℚ) (cs : List ℚ) (e : ℚ) (i : ℕ)
    (h : i < cs.length) :
    (emaScan k e cs)[i]? = some ((cs.take (i + 1)).foldl (emaStep k) e) := by
  induction cs generalizing e i with
  | nil => simp at h
  | cons c cs ih =>
    cases i with
    | zero => simp [emaScan]
    | succ j =>
      simp only [emaScan, List.getElem?_cons_succ]
      rw [ih _ j (by simpa using h)]
      simp [List.take_succ_cons]

theorem emaCalculate_length (p : ℕ) (vs : List ℚ) (hp : 0 < p)
    (h : p ≤ vs.length) :
    (emaCalculate p vs).length = vs.length - p + 1 := by
  rw [emaCalculate, if_neg (by omega)]
  simp [emaScan_length]

theorem emaCalculate_getElem? (p : ℕ) (vs : List ℚ) (hp : 0 < p)
    (hlen : p ≤ vs.length) (j : ℕ) (hj : j ≤ vs.length - p) :
    (emaCalculate p vs)[j]? =
      some (((vs.drop p).take j).foldl (emaStep (2 / ((p : ℚ) + 1)))
        ((vs.take p).sum / (p : ℚ))) := by
  rw [emaCalculate, if_neg (by omega)]
  cases j with
  | zero => simp
  | succ j' =>
    simp only [List.getElem?_cons_succ]
    rw [emaScan_getElem? _ _ _ j' (by simp; omega)]

theorem padEMA_length (arr : List ℚ) (p : ℕ) :
    (padEMA arr p).length = (p - 1) + arr.length := by
  simp [padEMA]

theorem padEMA_getElem?_lt (arr : List ℚ) (p i : ℕ) (h : i < p - 1) :
    (padEMA arr p)[i]? = some none := by
  rw [padEMA, List.getElem?_append]
  simp [List.getElem?_replicate, h]

theorem padEMA_getElem?_ge (arr : List ℚ) (p i : ℕ) (h : p - 1 ≤ i) :
    (padEMA arr p)[i]? = (arr[i - (p - 1)]?).map some := by
  rw [padEMA, List.getElem?_append_right (by simpa using h), List.getElem?_map]
  simp

theorem paddedEMA_length (p : ℕ) (vs : List ℚ) (hp : 0 < p)
    (h : p ≤ vs.length) :
    (padEMA (emaCalculate p vs) p).length = vs.length := by
  rw [padEMA_length, emaCalculate_length p vs hp h]
  omega

theorem paddedEMA_getElem?_ge (p : ℕ) (vs : List ℚ) (hp : 0 < p)
    (hlen : p ≤ vs.length) (i : ℕ) (h1 : p - 1 ≤ i) (h2 : i < vs.length) :
    (padEMA (emaCalculate p vs) p)[i]? =
      some (some (((vs.drop p).take (i - (p - 1))).foldl
        (emaStep (2 / ((p : ℚ) + 1))) ((vs.take p).sum / (p : ℚ)))) := by
  rw [padEMA_getElem?_ge _ _ _ h1,
    emaCalculate_getElem? p vs hp hlen (i - (p - 1)) (by omega)]
  rfl

/-! ## Helper lemmas: breadth accumulation -/

def deltaPos (l : List (Date × Bool)) (d : Date) : ℕ :=
  l.countP fun p => decide (p.1 = d) && p.2

def deltaNeg (l : List (Date × Bool)) (d : Date) : ℕ :=
  l.countP fun p => decide (p.1 = d) && !p.2

theorem applyBumps_char (l : List (Date × Bool)) (b : BMap) (d : Date) :
    applyBumps l b d =
      if deltaPos l d = 0 ∧ deltaNeg l d = 0 then b d
      else some (((b d).getD (0, 0)).1 + deltaPos l d,
                 ((b d).getD (0, 0)).2 + deltaNeg l d) := by
  induction l generalizing b with
  | nil => simp [applyBumps, deltaPos, deltaNeg]
  | cons x l ih =>
    obtain ⟨d0, ok⟩ := x
    have hstep : applyBumps ((d0, ok) :: l) b = applyBumps l (bump b d0 ok) := rfl
    rw [hstep, ih (bump b d0 ok)]
    by_cases hd : d0 = d
    · subst hd
      have hpos : deltaPos ((d0, ok) :: l) d0 = deltaPos l d0 + (if ok then 1 else 0) := by
        cases ok <;> simp [deltaPos, List.countP_cons]
      have hneg : deltaNeg ((d0, ok) :: l) d0 = deltaNeg l d0 + (if ok then 0 else 1) := by
        cases ok <;> simp [deltaNeg, List.countP_cons]
      have hb : bump b d0 ok d0
          = some (((b d0).getD (0, 0)).1 + (if ok then 1 else 0),
                  ((b d0).getD (0, 0)).2 + (if ok then 0 else 1)) := by
        cases ok <;> simp [bump]
      rw [hpos, hneg, hb]
      cases ok <;> split_ifs <;> (try simp_all) <;> omega
    · have hd' : ¬d = d0 := fun h => hd h.symm
      have hpos : deltaPos ((d0, ok) :: l) d = deltaPos l d := by
        simp [deltaPos, List.countP_cons, hd]
      have hneg : deltaNeg ((d0, ok) :: l) d = deltaNeg l d := by
        simp [deltaNeg, List.countP_cons, hd]
      have hb : bump b d0 ok d = b d := by
        simp only [bump]
        rw [if_neg hd']
      rw [hpos, hneg, hb]

theorem applyBumps_append (a c : List (Date × Bool)) (b : BMap) :
    applyBumps (a ++ c) b = applyBumps c (applyBumps a b) :=
  List.foldl_append _ _ _ _

/-- The breadth increments one input contributes in the 50/200 variant. -/
def symBumps000 (fmt : Int → Date) (p : String × List Bar) : List (Date × Bool) :=
  if p.2.length < 200 then [] else bumps000 (barsFor000 fmt p.2)

theorem processSymbol000_snd (fmt : Int → Date) (sym : String) (kl : List Bar)
    (st : List Row000 × BMap) :
    (processSymbol000 fmt sym kl st).2
      = applyBumps (symBumps000 fmt (sym, kl)) st.2 := by
  show (processSymbol000 fmt sym kl st).2
    = applyBumps (if kl.length < 200 then [] else bumps000 (barsFor000 fmt kl)) st.2
  rw [processSymbol000]
  split_ifs with h
  · rfl
  · rfl

theorem runBatch000_foldl_snd (fmt : Int → Date) (inputs : List (String × List Bar)) :
    ∀ st : List Row000 × BMap,
      (inputs.foldl (fun st p => processSymbol000 fmt p.1 p.2 st) st).2
        = applyBumps (inputs.flatMap (symBumps000 fmt)) st.2 := by
  induction inputs with
  | nil => intro st; rfl
  | cons p l ih =>
    intro st
    have hsnd : (processSymbol000 fmt p.1 p.2 st).2
        = applyBumps (symBumps000 fmt p) st.2 := by
      have h := processSymbol000_snd fmt p.1 p.2 st
      simpa using h
    rw [List.foldl_cons, ih, hsnd, List.flatMap_cons, applyBumps_append]

theorem runBatch000_snd (fmt : Int → Date) (inputs : List (String × List Bar)) :
    (runBatch000 fmt inputs).2
      = applyBumps (inputs.flatMap (symBumps000 fmt)) emptyB :=
  runBatch000_foldl_snd fmt inputs ([], emptyB)

theorem countPFlatMap {α β : Type} (l : List α) (f : α → List β) (q : β → Bool) :
    (l.flatMap f).countP q = (l.map fun a => (f a).countP q).sum := by
  induction l with
  | nil => rfl
  | cons a l ih => simp [List.flatMap_cons, List.countP_append, ih]

/-- Final breadth of the 50/200 batch at a date, as a function of the
per-input increment counts: the sum of the per-input positive and negative
contributions, with the date absent exactly when both sums are zero. -/
theorem runBatch000_char (fmt : Int → Date) (inputs : List (String × List Bar))
    (d : Date) :
    (runBatch000 fmt inputs).2 d =
      if (inputs.map fun p => deltaPos (symBumps000 fmt p) d).sum = 0
          ∧ (inputs.map fun p => deltaNeg (symBumps000 fmt p) d).sum = 0
      then none
      else some ((inputs.map fun p => deltaPos (symBumps000 fmt p) d).sum,
                 (inputs.map fun p => deltaNeg (symBumps000 fmt p) d).sum) := by
  rw [runBatch000_snd, applyBumps_char]
  have hp : deltaPos (inputs.flatMap (symBumps000 fmt)) d
      = (inputs.map fun p => deltaPos (symBumps000 fmt p) d).sum := by
    rw [deltaPos, countPFlatMap]
    rfl
  have hn : deltaNeg (inputs.flatMap (symBumps000 fmt)) d
      = (inputs.map fun p => deltaNeg (symBumps000 fmt p) d).sum := by
    rw [deltaNeg, countPFlatMap]
    rfl
  rw [hp, hn]
  simp [emptyB]

/-! ## Helper lemmas: rolling extrema -/

/-- The positional specification of the rolling-extrema flags: below the
window size both flags are false; from index `w` on, the current close is
compared against the extremes of the `w` closes strictly before index `i`. -/
def hhllSpecAt (w : ℕ) (closes : List ℚ) (i : ℕ) (c : ℚ) : Bool × Bool :=
  if i < w then (false, false)
  else (decide (jsMax ((closes.drop (i - w)).take w) < c),
        decide (c < jsMin ((closes.drop (i - w)).take w)))

theorem hhllFlags_length (w : ℕ) (window cs : List ℚ) :
    (hhllFlags w window cs).length = cs.length := by
  induction cs generalizing window with
  | nil => rfl
  | cons c cs ih =>
    rw [hhllFlags]
    split_ifs <;> simp [ih]

theorem hhllFlags_getElem? (w : ℕ) (hw : 0 < w) :
    ∀ (cs pre : List ℚ) (j : ℕ),
      (hhllFlags w (pre.drop (pre.length - w)) cs)[j]?
        = (cs[j]?).map fun c => hhllSpecAt w (pre ++ cs) (pre.length + j) c := by
  intro cs
  induction cs with
  | nil => intro pre j; simp [hhllFlags]
  | cons c cs ih =>
    intro pre j
    have hwl : (pre.drop (pre.length - w)).length = pre.length - (pre.length - w) :=
      List.length_drop _ _
    by_cases hpre : pre.length < w
    · have h0 : pre.length - w = 0 := by omega
      have hwin : pre.drop (pre.length - w) = pre := by rw [h0, List.drop_zero]
      rw [hwin, hhllFlags, if_pos (by omega)]
      cases j with
      | zero =>
        simp [hhllSpecAt, hpre]
      | succ j' =>
        simp only [List.getElem?_cons_succ]
        have hwin' : pre ++ [c] = (pre ++ [c]).drop ((pre ++ [c]).length - w) := by
          have : (pre ++ [c]).length - w = 0 := by simp; omega
          rw [this, List.drop_zero]
        rw [hwin', ih (pre ++ [c]) j']
        have happ : (pre ++ [c]) ++ cs = pre ++ c :: cs := by simp
        rw [happ]
        have hidx : (pre ++ [c]).length + j' = pre.length + (j' + 1) := by simp; omega
        rw [hidx]
    · have hge : w ≤ pre.length := by omega
      have hwl' : (pre.drop (pre.length - w)).length = w := by omega
      rw [hhllFlags, if_neg (by omega)]
      cases j with
      | zero =>
        have hslice : ((pre ++ c :: cs).drop (pre.length - w)).take w
            = pre.drop (pre.length - w) := by
          rw [List.drop_append_of_le_length (by omega)]
          exact List.take_left' hwl'
        simp [hhllSpecAt, hpre, hslice]
      | succ j' =>
        simp only [List.getElem?_cons_succ]
        have htail : (pre.drop (pre.length - w)).tail ++ [c]
            = (pre ++ [c]).drop ((pre ++ [c]).length - w) := by
          rw [List.tail_drop]
          have h1 : (pre ++ [c]).length - w = (pre.length - w) + 1 := by simp; omega
          rw [h1, List.drop_append_of_le_length (by omega)]
        rw [htail, ih (pre ++ [c]) j']
        have happ : (pre ++ [c]) ++ cs = pre ++ c :: cs := by simp
        rw [happ]
        have hidx : (pre ++ [c]).length + j' = pre.length + (j' + 1) := by simp; omega
        rw [hidx]

/-- Specialization at the start of the candle walk: the window buffer starts
empty. -/
theorem hhllFlags_spec (w : ℕ) (hw : 0 < w) (closes : List ℚ) (j : ℕ) :
    (hhllFlags w [] closes)[j]?
      = (closes[j]?).map fun c => hhllSpecAt w closes j c := by
  have h := hhllFlags_getElem? w hw closes [] j
  simpa using h

/-! ## Helper lemmas: date-keyed flag objects -/

theorem objSet_keys (m : List (Date × Bool)) (d : Date) (v : Bool) :
    (objSet m d v).map Prod.fst
      = if m.any (fun p => decide (p.1 = d)) then m.map Prod.fst
        else m.map Prod.fst ++ [d] := by
  rw [objSet]
  split_ifs with h
  · rw [List.map_map]
    apply List.map_congr_left
    intro p _
    by_cases hp : p.1 = d
    · simp [hp]
    · simp [hp]
  · simp

theorem objSetAll_keys_nodup (l : List (Date × Bool)) :
    ∀ m : List (Date × Bool), (m.map Prod.fst).Nodup
      → ((objSetAll m l).map Prod.fst).Nodup := by
  induction l with
  | nil => intro m h; exact h
  | cons x l ih =>
    intro m h
    have hstep : objSetAll m (x :: l) = objSetAll (objSet m x.1 x.2) l := rfl
    rw [hstep]
    apply ih
    rw [objSet_keys]
    split_ifs with hc
    · exact h
    · have hnot : x.1 ∉ m.map Prod.fst := by
        intro hmem
        rcases List.mem_map.mp hmem with ⟨p, hp, hpe⟩
        rw [List.any_eq_true] at hc
        exact absurd ⟨p, hp, by simp [hpe]⟩ hc
      rw [← List.concat_eq_append]
      exact h.concat hnot


theorem hhllFlags_all_false (w : ℕ) :
    ∀ (cs window : List ℚ), cs.length + window.length ≤ w →
      hhllFlags w window cs = List.replicate cs.length (false, false) := by
  intro cs
  induction cs with
  | nil => intro window _; rfl
  | cons c cs ih =>
    intro window hlen
    simp only [List.length_cons] at hlen
    rw [hhllFlags, if_pos (by omega)]
    rw [ih (window ++ [c]) (by simp; omega)]
    rfl

theorem objSetAll_values_false (l : List (Date × Bool)) :
    ∀ m, (∀ p ∈ m, p.2 = false) → (∀ p ∈ l, p.2 = false) →
      ∀ p ∈ objSetAll m l, p.2 = false := by
  induction l with
  | nil => intro m hm _ p hp; exact hm p hp
  | cons x l ih =>
    intro m hm hl p hp
    have hx : x.2 = false := hl x (List.mem_cons_self x l)
    have hstep : objSetAll m (x :: l) = objSetAll (objSet m x.1 x.2) l := rfl
    rw [hstep] at hp
    refine ih (objSet m x.1 x.2) ?_ (fun q hq => hl q (List.mem_cons_of_mem _ hq)) p hp
    intro q hq
    rw [objSet] at hq
    split_ifs at hq with hc
    · rcases List.mem_map.mp hq with ⟨r, hr, hrq⟩
      by_cases hrd : r.1 = x.1
      · rw [if_pos hrd] at hrq
        rw [← hrq]
        exact hx
      · rw [if_neg hrd] at hrq
        rw [← hrq]
        exact hm r hr
    · rcases List.mem_append.mp hq with hmem | hmem
      · exact hm q hmem
      · simp only [List.mem_singleton] at hmem
        rw [hmem]
        exact hx

/-! ## Helper lemmas: parallel array walk -/

theorem zipBars_length_of_eq :
    ∀ (ds : List Date) (cs : List ℚ) (xs ys : List (Option ℚ)) (n : ℕ),
      ds.length = n → cs.length = n → xs.length = n → ys.length = n →
      (zipBars ds cs xs ys).length = n := by
  intro ds
  induction ds with
  | nil =>
    intro cs xs ys n hd _ _ _
    simp at hd
    simp [zipBars, ← hd]
  | cons d0 ds ih =>
    intro cs xs ys n hd hc hx hy
    cases cs with
    | nil => simp at hd hc; omega
    | cons c0 cs =>
      cases xs with
      | nil => simp at hd hx; omega
      | cons x0 xs =>
        cases ys with
        | nil => simp at hd hy; omega
        | cons y0 ys =>
          cases n with
          | zero => simp at hd
          | succ m =>
            rw [zipBars]
            simp only [List.length_cons]
            rw [ih cs xs ys m (by simpa using hd) (by simpa using hc)
                (by simpa using hx) (by simpa using hy)]

theorem zipBars_getElem? :
    ∀ (ds : List Date) (cs : List ℚ) (xs ys : List (Option ℚ)) (i : ℕ)
      (d : Date) (c : ℚ) (x y : Option ℚ),
      ds[i]? = some d → cs[i]? = some c → xs[i]? = some x → ys[i]? = some y →
      (zipBars ds cs xs ys)[i]? = some ⟨d, c, x, y⟩ := by
  intro ds
  induction ds with
  | nil => intro cs xs ys i d c x y hd; simp at hd
  | cons d0 ds ih =>
    intro cs xs ys i d c x y hd hc hx hy
    cases cs with
    | nil => simp at hc
    | cons c0 cs =>
      cases xs with
      | nil => simp at hx
      | cons x0 xs =>
        cases ys with
        | nil => simp at hy
        | cons y0 ys =>
          cases i with
          | zero =>
            simp only [List.getElem?_cons_zero, Option.some.injEq] at hd hc hx hy
            rw [zipBars]
            simp [hd, hc, hx, hy]
          | succ j =>
            simp only [List.getElem?_cons_succ] at hd hc hx hy
            rw [zipBars]
            simpa using ih cs xs ys j d c x y hd hc hx hy

/-! ## HH/LL aggregation (`hh_llindex.js` main loop) -/

/-- `ANALYSIS_START = "2024-01-01"`; dates are compared as strings. -/
def ANALYSIS_START : Date := "2024-01-01"

/-- Read `m[d]` on a date-keyed JS object: the value of the (unique) entry
with key `d`, or the JS `undefined` (falsy, modelled `false`) when absent. -/
def objGet (m : List (Date × Bool)) (d : Date) : Bool :=
  ((m.find? fun p => decide (p.1 = d)).map Prod.snd).getD false

/-- Shared aggregation state of the HH/LL variant: the `allDates` set and
the two count objects (absent keys read as 0 via `|| 0`). -/
structure HLAgg where
  allDates : Date → Bool
  hhCounts : Date → ℕ
  llCounts : Date → ℕ

def emptyHL : HLAgg := ⟨fun _ => false, fun _ => 0, fun _ => 0⟩

/-- One iteration of `for (const d of Object.keys(hh_flags))`: add the date
to `allDates`; skip dates before the analysis start; otherwise increment
`hh_counts[d]` when the hh flag is true and `ll_counts[d]` when the ll flag
is true. -/
def hlStep (ll : List (Date × Bool)) (st : HLAgg) (p : Date × Bool) : HLAgg :=
  let st1 : HLAgg :=
    ⟨fun d => if d = p.1 then true else st.allDates d, st.hhCounts, st.llCounts⟩
  if p.1 < ANALYSIS_START then st1
  else
    let st2 : HLAgg :=
      if p.2 then
        ⟨st1.allDates,
         fun d => if d = p.1 then st1.hhCounts p.1 + 1 else st1.hhCounts d,
         st1.llCounts⟩
      else st1
    if objGet ll p.1 then
      ⟨st2.allDates, st2.hhCounts,
       fun d => if d = p.1 then st2.llCounts p.1 + 1 else st2.llCounts d⟩
    else st2

/-- One symbol of the HH/LL variant: compute the date-keyed flags and fold
the aggregation loop over the hh keys. -/
def processSymbolHL (w : ℕ) (candles : List (Date × ℚ)) (st : HLAgg) : HLAgg :=
  let fl := flagHHLLforSymbol w candles
  fl.1.foldl (hlStep fl.2) st

/-- Per-instrument catch of the HH/LL variant: a failed fetch leaves the
shared state untouched. -/
def processSymbolHLE (w : ℕ) (r : Except JsError (List (Date × ℚ)))
    (st : HLAgg) : HLAgg :=
  match r with
  | .error _ => st
  | .ok candles => processSymbolHL w candles st

def runBatchHL (w : ℕ) (inputs : List (String × List (Date × ℚ))) : HLAgg :=
  inputs.foldl (fun st p => processSymbolHL w p.2 st) emptyHL

def runBatchHLE (w : ℕ)
    (inputs : List (String × Except JsError (List (Date × ℚ)))) : HLAgg :=
  inputs.foldl (fun st p => processSymbolHLE w p.2 st) emptyHL

/-! ## Claim theorems -/

/-- C9: if the universe-resolution fetch fails, the run exits with code 1
through the final catch, writes no output file, runs the per-instrument
stage for no instrument and produces no detail row — there is no partial
universe and no partial output. -/
theorem C9_universe_failure_aborts (e : JsError) (fmt : Int → Date)
    (fetch : String → Except JsError (List Bar)) :
    (main003 fmt (.error e) fetch).exitCode = 1
      ∧ (main003 fmt (.error e) fetch).filesWritten = []
      ∧ (main003 fmt (.error e) fetch).instrumentsProcessed = []
      ∧ (main003 fmt (.error e) fetch).detailRows = [] :=
  ⟨rfl, rfl, rfl, rfl⟩

/-- C10: every run of the EMA-100/200 variant exits with code 1 and writes
no output file and processes no instrument; when the exchange-info fetch
itself succeeded, the error reaching the fatal handler is precisely the
ReferenceError from evaluating the undeclared identifier `data`. -/
theorem C10_undefined_data_always_fatal (fmt : Int → Date)
    (exInfo : Except JsError (List SymbolMeta))
    (fetch : String → Except JsError (List Bar)) :
    (main001 fmt exInfo fetch).exitCode = 1
      ∧ (main001 fmt exInfo fetch).filesWritten = []
      ∧ (main001 fmt exInfo fetch).instrumentsProcessed = []
      ∧ (main001 fmt exInfo fetch).detailRows = []
      ∧ (∀ metas, exInfo = .ok metas →
          (main001 fmt exInfo fetch).err = some .referenceError) := by
  cases exInfo with
  | error e =>
    refine ⟨rfl, rfl, rfl, rfl, ?_⟩
    intro metas h
    cases h
  | ok metas => exact ⟨rfl, rfl, rfl, rfl, fun _ _ => rfl⟩

/-- Witness for C10 at a concrete successful exchange-info fetch. -/
theorem C10_undefined_data_always_fatal_witness :
    (main001 fmtW (.ok []) fun _ => .error .transport).exitCode = 1
      ∧ (main001 fmtW (.ok []) fun _ => .error .transport).err
          = some .referenceError :=
  ⟨(C10_undefined_data_always_fatal fmtW (.ok []) fun _ => .error .transport).1,
   (C10_undefined_data_always_fatal fmtW (.ok []) fun _ => .error .transport).2.2.2.2
      [] rfl⟩

/-- C8: a per-instrument fetch failure is caught at the instrument level and
converted to a skip, in the 50/200 variant and in the HH/LL variant alike:
the batch result with failing inputs equals the batch result over the
successfully fetched inputs only, so the outputs contain exactly the
successful instruments and the failed ones are simply absent. -/
theorem C8_instrument_failures_are_skips :
    (∀ (fmt : Int → Date) (inputs : List (String × Except JsError (List Bar))),
        runBatchE000 fmt inputs = runBatch000 fmt (successes inputs))
    ∧ (∀ (w : ℕ) (inputs : List (String × Except JsError (List (Date × ℚ)))),
        runBatchHLE w inputs = runBatchHL w (successes inputs)) := by
  constructor
  · intro fmt inputs
    have aux : ∀ (l : List (String × Except JsError (List Bar)))
        (st : List Row000 × BMap),
        l.foldl (fun st p => processSymbolE000 fmt p.1 p.2 st) st
          = (successes l).foldl (fun st p => processSymbol000 fmt p.1 p.2 st) st := by
      intro l
      induction l with
      | nil => intro st; rfl
      | cons p l ih =>
        intro st
        obtain ⟨sym, r⟩ := p
        cases r with
        | error e =>
          simpa [successes, List.filterMap_cons, processSymbolE000] using ih st
        | ok kl =>
          simpa [successes, List.filterMap_cons, processSymbolE000]
            using ih (processSymbol000 fmt sym kl st)
    exact aux inputs ([], emptyB)
  · intro w inputs
    have aux : ∀ (l : List (String × Except JsError (List (Date × ℚ))))
        (st : HLAgg),
        l.foldl (fun st p => processSymbolHLE w p.2 st) st
          = (successes l).foldl (fun st p => processSymbolHL w p.2 st) st := by
      intro l
      induction l with
      | nil => intro st; rfl
      | cons p l ih =>
        intro st
        obtain ⟨sym, r⟩ := p
        cases r with
        | error e =>
          simpa [successes, List.filterMap_cons, processSymbolHLE] using ih st
        | ok candles =>
          simpa [successes, List.filterMap_cons, processSymbolHLE]
            using ih (processSymbolHL w candles st)
    exact aux inputs emptyHL

theorem objGet_false_of_all_false (m : List (Date × Bool))
    (h : ∀ p ∈ m, p.2 = false) (d : Date) : objGet m d = false := by
  rw [objGet]
  cases hf : m.find? fun p => decide (p.1 = d) with
  | none => rfl
  | some p =>
    have hm : p ∈ m := List.mem_of_find?_eq_some hf
    simp [h p hm]

theorem hlFold_counts_const (ll : List (Date × Bool))
    (hll : ∀ p ∈ ll, p.2 = false) :
    ∀ (l : List (Date × Bool)) (st : HLAgg), (∀ p ∈ l, p.2 = false) →
      ((l.foldl (hlStep ll) st).hhCounts = st.hhCounts
        ∧ (l.foldl (hlStep ll) st).llCounts = st.llCounts) := by
  intro l
  induction l with
  | nil => intro st _; exact ⟨rfl, rfl⟩
  | cons p l ih =>
    intro st hl
    have hp : p.2 = false := hl p (List.mem_cons_self p l)
    have hstep : (hlStep ll st p).hhCounts = st.hhCounts
        ∧ (hlStep ll st p).llCounts = st.llCounts := by
      rw [hlStep]
      simp only [hp, objGet_false_of_all_false ll hll p.1, Bool.false_eq_true,
        if_false]
      split_ifs <;> exact ⟨rfl, rfl⟩
    have hrest := ih (hlStep ll st p) fun q hq => hl q (List.mem_cons_of_mem _ hq)
    rw [List.foldl_cons]
    exact ⟨hrest.1.trans hstep.1, hrest.2.trans hstep.2⟩

theorem flagHHLL_values_false (w : ℕ) (candles : List (Date × ℚ))
    (hlen : candles.length ≤ w) :
    (∀ p ∈ (flagHHLLforSymbol w candles).1, p.2 = false)
      ∧ (∀ p ∈ (flagHHLLforSymbol w candles).2, p.2 = false) := by
  have hfl : hhllFlags w [] (candles.map Prod.snd)
      = List.replicate (candles.map Prod.snd).length (false, false) :=
    hhllFlags_all_false w (candles.map Prod.snd) [] (by simp; omega)
  constructor
  · intro p hp
    refine objSetAll_values_false _ [] (by intro q hq; cases hq) ?_ p hp
    intro q hq
    rw [hfl] at hq
    have hz := (List.of_mem_zip hq).2
    rw [List.map_replicate] at hz
    exact List.eq_of_mem_replicate hz
  · intro p hp
    refine objSetAll_values_false _ [] (by intro q hq; cases hq) ?_ p hp
    intro q hq
    rw [hfl] at hq
    have hz := (List.of_mem_zip hq).2
    rw [List.map_replicate] at hz
    exact List.eq_of_mem_replicate hz

/-- C6: an instrument with fewer bars than the largest required
period/window is skipped as a normal outcome: in the 50/200 variant the
`kl.length < 200` guard leaves the whole shared state untouched (zero rows,
zero counts), and in the HH/LL variant fewer than `w` bars makes every flag
false, so the instrument adds zero to every hh/ll count. -/
theorem C6_insufficient_history_skip :
    (∀ (fmt : Int → Date) (sym : String) (kl : List Bar)
        (st : List Row000 × BMap), kl.length < 200 →
        processSymbol000 fmt sym kl st = st)
    ∧ (∀ (w : ℕ) (candles : List (Date × ℚ)) (st : HLAgg),
        candles.length < w →
        (processSymbolHL w candles st).hhCounts = st.hhCounts
          ∧ (processSymbolHL w candles st).llCounts = st.llCounts) := by
  constructor
  · intro fmt sym kl st h
    rw [processSymbol000, if_pos h]
  · intro w candles st h
    have hv := flagHHLL_values_false w candles (le_of_lt h)
    exact hlFold_counts_const _ hv.2 _ st hv.1

/-- Witness for C6 at concrete inputs: an empty bar list in the 50/200
variant and a one-candle list below the 90-bar window in the HH/LL variant. -/
theorem C6_insufficient_history_skip_witness :
    (([] : List Bar).length < 200
      ∧ processSymbol000 fmtW "AAA" [] ([], emptyB) = ([], emptyB))
      ∧ (([("2024-01-02", (5 : ℚ))] : List (Date × ℚ)).length < 90
        ∧ (processSymbolHL 90 [("2024-01-02", 5)] emptyHL).hhCounts
            = emptyHL.hhCounts) :=
  ⟨⟨by decide, C6_insufficient_history_skip.1 fmtW "AAA" [] ([], emptyB) (by decide)⟩,
   ⟨by decide,
    (C6_insufficient_history_skip.2 90 [("2024-01-02", 5)] emptyHL (by decide)).1⟩⟩

/-- C4: the rolling-extrema flags of `flagHHLLforSymbol` are false at every
index below the window size `w`; from index `w` on, the hh flag is true
exactly when the current close exceeds the maximum of the `w` closes
strictly before it and the ll flag exactly when it is below their minimum.
The window `close[i-w..i-1]` never contains `close[i]` itself. -/
theorem C4_rolling_extrema_flags (w : ℕ) (closes : List ℚ) (hw : 0 < w) :
    (hhllFlags w [] closes).length = closes.length
      ∧ (∀ j, j < closes.length →
          (hhllFlags w [] closes)[j]?
            = some (hhllSpecAt w closes j (closes[j]?.getD 0)))
      ∧ (∀ j c, j < w → hhllSpecAt w closes j c = (false, false))
      ∧ (∀ j c, w ≤ j →
          hhllSpecAt w closes j c
            = (decide (jsMax ((closes.drop (j - w)).take w) < c),
               decide (c < jsMin ((closes.drop (j - w)).take w)))) := by
  refine ⟨hhllFlags_length w [] closes, ?_, ?_, ?_⟩
  · intro j hj
    rw [hhllFlags_spec w hw closes j, List.getElem?_eq_getElem hj]
    rfl
  · intro j c hj
    simp only [hhllSpecAt]
    rw [if_pos hj]
  · intro j c hj
    simp only [hhllSpecAt]
    rw [if_neg (by omega)]

/-- Witness for C4 at window 1 and closes `[5, 3, 7]`. -/
theorem C4_rolling_extrema_flags_witness :
    0 < 1 ∧ (hhllFlags 1 [] [5, 3, 7]).length = ([5, 3, 7] : List ℚ).length :=
  ⟨by decide, (C4_rolling_extrema_flags 1 [5, 3, 7] (by decide)).1⟩

/-- C5: for period `p` and a close sequence of length at least `p`, the
padded EMA series has the same length as the close sequence, is absent at
indices `0..p-2`, equals the arithmetic mean of the first `p` closes at
index `p-1`, and from index `p` on satisfies
`ema[i] = close[i]*k + ema[i-1]*(1-k)` with `k = 2/(p+1)`. -/
theorem C5_padded_ema_shape (p : ℕ) (vs : List ℚ) (hp : 0 < p)
    (hlen : p ≤ vs.length) :
    (padEMA (emaCalculate p vs) p).length = vs.length
      ∧ (∀ i, i < p - 1 → (padEMA (emaCalculate p vs) p)[i]? = some none)
      ∧ (padEMA (emaCalculate p vs) p)[p - 1]?
          = some (some ((vs.take p).sum / (p : ℚ)))
      ∧ (∀ i, p ≤ i → i < vs.length →
          ∃ c e e', vs[i]? = some c
            ∧ (padEMA (emaCalculate p vs) p)[i]? = some (some e)
            ∧ (padEMA (emaCalculate p vs) p)[i - 1]? = some (some e')
            ∧ e = c * (2 / ((p : ℚ) + 1)) + e' * (1 - 2 / ((p : ℚ) + 1))) := by
  refine ⟨paddedEMA_length p vs hp hlen, ?_, ?_, ?_⟩
  · intro i hi
    exact padEMA_getElem?_lt _ p i hi
  · rw [paddedEMA_getElem?_ge p vs hp hlen (p - 1) (le_refl _) (by omega),
      Nat.sub_self, List.take_zero]
    rfl
  · intro i hpi hil
    have hidx : (vs.drop p)[i - p]? = some (vs[i]) := by
      rw [List.getElem?_drop]
      have hpt : p + (i - p) = i := by omega
      rw [hpt, List.getElem?_eq_getElem hil]
    refine ⟨vs[i],
      emaStep (2 / ((p : ℚ) + 1))
        (((vs.drop p).take (i - p)).foldl (emaStep (2 / ((p : ℚ) + 1)))
          ((vs.take p).sum / (p : ℚ))) (vs[i]),
      ((vs.drop p).take (i - p)).foldl (emaStep (2 / ((p : ℚ) + 1)))
        ((vs.take p).sum / (p : ℚ)),
      List.getElem?_eq_getElem hil, ?_, ?_, ?_⟩
    · rw [paddedEMA_getElem?_ge p vs hp hlen i (by omega) hil]
      have h1 : i - (p - 1) = (i - p) + 1 := by omega
      rw [h1, List.take_succ, hidx, List.foldl_append]
      rfl
    · rw [paddedEMA_getElem?_ge p vs hp hlen (i - 1) (by omega) (by omega)]
      have h2 : i - 1 - (p - 1) = i - p := by omega
      rw [h2]
    · rfl

/-- Witness for C5 at period 2 and closes `[1, 3, 5]`. -/
theorem C5_padded_ema_shape_witness :
    0 < 2 ∧ (2 : ℕ) ≤ ([1, 3, 5] : List ℚ).length
      ∧ (padEMA (emaCalculate 2 [1, 3, 5]) 2).length = ([1, 3, 5] : List ℚ).length :=
  ⟨by decide, by decide,
   (C5_padded_ema_shape 2 [1, 3, 5] (by decide) (by decide)).1⟩

/-- C7: with a fixed per-instrument bar assignment, processing the
instruments of the 50/200 variant in any permuted order yields the same
final per-date breadth contents, and hence the same derived aggregate row
for every date: the accumulation is a per-date sum of per-instrument
contributions, which is commutative and associative. -/
theorem C7_order_insensitive (fmt : Int → Date)
    (inputs inputs' : List (String × List Bar))
    (h : inputs.Perm inputs') (d : Date) :
    (runBatch000 fmt inputs).2 d = (runBatch000 fmt inputs').2 d
      ∧ rowFor000 (runBatch000 fmt inputs).2 d
          = rowFor000 (runBatch000 fmt inputs').2 d := by
  have hpos : (inputs.map fun p => deltaPos (symBumps000 fmt p) d).sum
      = (inputs'.map fun p => deltaPos (symBumps000 fmt p) d).sum :=
    (h.map _).sum_eq
  have hneg : (inputs.map fun p => deltaNeg (symBumps000 fmt p) d).sum
      = (inputs'.map fun p => deltaNeg (symBumps000 fmt p) d).sum :=
    (h.map _).sum_eq
  have heq : (runBatch000 fmt inputs).2 d = (runBatch000 fmt inputs').2 d := by
    rw [runBatch000_char fmt inputs d, runBatch000_char fmt inputs' d, hpos, hneg]
  exact ⟨heq, by rw [rowFor000, rowFor000, heq]⟩

/-- Witness for C7: swapping a two-instrument universe. -/
theorem C7_order_insensitive_witness :
    ([("A", [Bar.mk 0 1]), ("B", [])] : List (String × List Bar)).Perm
        [("B", []), ("A", [Bar.mk 0 1])]
      ∧ (runBatch000 fmtW [("A", [Bar.mk 0 1]), ("B", [])]).2 "x"
          = (runBatch000 fmtW [("B", []), ("A", [Bar.mk 0 1])]).2 "x" :=
  ⟨List.Perm.swap _ _ _,
   (C7_order_insensitive fmtW _ _ (List.Perm.swap _ _ _) "x").1⟩

set_option maxRecDepth 10000 in
/-- Counterexample to C1 as stated: in the 50/200 variant with 200 bars of
constant close 1, bar 0 lies in the warm-up region of both EMAs — its padded
EMA values are both null — yet the loop emits a SignalRow for it with
`signal = 1` and also increments the positive count of its date, because the
JS comparison `1 > null` coerces null to 0. -/
theorem C1_counterexample :
    (runBatch000 fmtW [("AAA", bars200)]).1.head?
        = some ⟨"AAA", "0", 1, none, none, 1⟩
      ∧ (runBatch000 fmtW [("AAA", bars200)]).2 "0" = some (1, 0) := by
  constructor
  · decide
  · decide

theorem hlFold_counts_le (ll : List (Date × Bool)) :
    ∀ (l : List (Date × Bool)) (st : HLAgg) (d : Date),
      (l.foldl (hlStep ll) st).hhCounts d
          ≤ st.hhCounts d + (l.map Prod.fst).count d
        ∧ (l.foldl (hlStep ll) st).llCounts d
          ≤ st.llCounts d + (l.map Prod.fst).count d := by
  intro l
  induction l with
  | nil => intro st d; simp
  | cons p l ih =>
    intro st d
    have hstep : (hlStep ll st p).hhCounts d
          ≤ st.hhCounts d + (if p.1 = d then 1 else 0)
        ∧ (hlStep ll st p).llCounts d
          ≤ st.llCounts d + (if p.1 = d then 1 else 0) := by
      by_cases hd : d = p.1 <;>
        · rw [hlStep]
          split_ifs <;> simp_all
    have hcount : ((p :: l).map Prod.fst).count d
        = (l.map Prod.fst).count d + (if p.1 = d then 1 else 0) := by
      rw [List.map_cons, List.count_cons]
      by_cases hd : p.1 = d <;> simp [hd]
    have hrest := ih (hlStep ll st p) d
    rw [List.foldl_cons, hcount]
    exact ⟨le_trans hrest.1 (by omega), le_trans hrest.2 (by omega)⟩

/-- C3 amended: in the HH/LL variant the per-symbol flags are keyed by
calendar date, with assignment overwriting the entry of an existing date, so
one instrument contributes at most one increment to each date's hh count and
at most one to each date's ll count, whatever the candle list — duplicate
timestamps on the same day collapse. (In the EMA variants, by contrast, each
bar increments separately; see the counterexample.) -/
theorem C3_amended_hl_single_increment (w : ℕ) (candles : List (Date × ℚ))
    (st : HLAgg) (d : Date) :
    (processSymbolHL w candles st).hhCounts d ≤ st.hhCounts d + 1
      ∧ (processSymbolHL w candles st).llCounts d ≤ st.llCounts d + 1 := by
  have hnodup : (((flagHHLLforSymbol w candles).1).map Prod.fst).Nodup :=
    objSetAll_keys_nodup _ [] (by simp)
  have hcount : (((flagHHLLforSymbol w candles).1).map Prod.fst).count d ≤ 1 :=
    List.nodup_iff_count_le_one.mp hnodup d
  have hb := hlFold_counts_le (flagHHLLforSymbol w candles).2
    (flagHHLLforSymbol w candles).1 st d
  exact ⟨le_trans hb.1 (by omega), le_trans hb.2 (by omega)⟩

set_option maxRecDepth 10000 in
/-- Counterexample to C3 as stated: in the 50/200 variant, two bars sharing
the calendar date "0" each increment that date's entry, so the single
instrument contributes two increments to one DailyAggregate entry. -/
theorem C3_counterexample :
    (runBatch000 fmtW [("AAA", barsDup)]).2 "0" = some (2, 0) := by decide

set_option maxRecDepth 10000 in
/-- Counterexample to C2 as stated: in the 75/200 variant with 200 bars of
constant close 1, the date of bar 0 has both per-indicator denominators
zero (`t75 = t200 = 0`), yet the date is present in the aggregate and its
output row carries the `NaN` (here: `none`) that `0/0*100` produces —
instead of being omitted. -/
theorem C2_counterexample :
    (runBatch003 fmtW [("AAA", bars200)]).2 "0" = some ⟨0, 0, 0, 0⟩
      ∧ rowFor003 (runBatch003 fmtW [("AAA", bars200)]).2 "0"
          = some ⟨"0", none, none⟩ := by
  have h : (runBatch003 fmtW [("AAA", bars200)]).2 "0" = some ⟨0, 0, 0, 0⟩ := by
    decide
  refine ⟨h, ?_⟩
  rw [rowFor003, h]
  rfl

/-- C2 amended: in the 50/200 variant every date present in the final
aggregate has a positive denominator `pos + neg ≥ 1`, and its emitted row is
exactly `{date, pos, neg, pos/(pos+neg)*100, neg/(pos+neg)*100}` — so that
variant never emits NaN. However the denominator counts every bar on the
date, warm-up bars included, so a date where no instrument had all
indicators non-absent can still appear (and in the 75/200 variant such a
date is emitted with NaN percentages; see the counterexample). -/
theorem C2_amended_rows (fmt : Int → Date) (inputs : List (String × List Bar))
    (d : Date) (pn : ℕ × ℕ) (h : (runBatch000 fmt inputs).2 d = some pn) :
    1 ≤ pn.1 + pn.2
      ∧ rowFor000 (runBatch000 fmt inputs).2 d
          = some ⟨d, pn.1, pn.2,
              some ((pn.1 : ℚ) / ((pn.1 : ℚ) + (pn.2 : ℚ)) * 100),
              some ((pn.2 : ℚ) / ((pn.1 : ℚ) + (pn.2 : ℚ)) * 100)⟩ := by
  have hchar := runBatch000_char fmt inputs d
  rw [h] at hchar
  have hsum : 1 ≤ pn.1 + pn.2 := by
    by_cases hz : (inputs.map fun p => deltaPos (symBumps000 fmt p) d).sum = 0
        ∧ (inputs.map fun p => deltaNeg (symBumps000 fmt p) d).sum = 0
    · rw [if_pos hz] at hchar
      cases hchar
    · rw [if_neg hz] at hchar
      have hpn : pn = ((inputs.map fun p => deltaPos (symBumps000 fmt p) d).sum,
          (inputs.map fun p => deltaNeg (symBumps000 fmt p) d).sum) := by
        injection hchar
      rw [hpn]
      simp only [not_and_or] at hz
      rcases hz with hz | hz <;> simp <;> omega
  refine ⟨hsum, ?_⟩
  rw [rowFor000, h]
  have hne : pn.1 + pn.2 ≠ 0 := by omega
  simp [pct, hne]
  omega

set_option maxRecDepth 10000 in
/-- Witness for C2 amended at the concrete 200-bar batch: date "0" holds
entry `(1, 0)`, and the theorem yields a positive denominator. -/
theorem C2_amended_rows_witness :
    (runBatch000 fmtW [("AAA", bars200)]).2 "0" = some (1, 0) ∧ 1 ≤ 1 + 0 :=
  ⟨by decide,
   (C2_amended_rows fmtW [("AAA", bars200)] "0" (1, 0) (by decide)).1⟩

/-- C1 amended: a SignalRow is emitted for every bar of a kept instrument,
warm-up bars included. In the 100/200 variant the aggregate contribution of
bar `i` happens exactly when the padded EMA-200 value at `i` is non-null,
that is when `199 ≤ i`, and then the EMA-100 value at `i` is non-null too;
in the 50/200 variant every bar contributes one count, ungated (see the
counterexample for the warm-up bars it counts). -/
theorem C1_amended_gating (dates : List Date) (closes : List ℚ)
    (hlen : 200 ≤ closes.length) (hd : dates.length = closes.length) :
    (zipBars dates closes (padEMA (emaCalculate 100 closes) 100)
        (padEMA (emaCalculate 200 closes) 200)).length = closes.length
      ∧ (∀ i, i < closes.length →
          ∃ bd, (zipBars dates closes (padEMA (emaCalculate 100 closes) 100)
              (padEMA (emaCalculate 200 closes) 200))[i]? = some bd
            ∧ (perBarBump001 bd ≠ none ↔ 199 ≤ i)
            ∧ (199 ≤ i → bd.e1 ≠ none ∧ bd.e2 ≠ none))
      ∧ (bumps000 (zipBars dates closes (padEMA (emaCalculate 50 closes) 50)
            (padEMA (emaCalculate 200 closes) 200))).length
          = (zipBars dates closes (padEMA (emaCalculate 50 closes) 50)
              (padEMA (emaCalculate 200 closes) 200)).length := by
  refine ⟨?_, ?_, by rw [bumps000, List.length_map]⟩
  · exact zipBars_length_of_eq dates closes _ _ closes.length hd rfl
      (paddedEMA_length 100 closes (by omega) (by omega))
      (paddedEMA_length 200 closes (by omega) (by omega))
  · intro i hi
    have hdi : dates[i]? = some (dates[i]) :=
      List.getElem?_eq_getElem (by omega)
    have hci : closes[i]? = some (closes[i]) := List.getElem?_eq_getElem hi
    by_cases h199 : i < 199
    · have he2 : (padEMA (emaCalculate 200 closes) 200)[i]? = some none :=
        padEMA_getElem?_lt _ 200 i (by omega)
      by_cases h99 : i < 99
      · have he1 : (padEMA (emaCalculate 100 closes) 100)[i]? = some none :=
          padEMA_getElem?_lt _ 100 i (by omega)
        refine ⟨_, zipBars_getElem? dates closes _ _ i _ _ _ _ hdi hci he1 he2,
          ?_, ?_⟩
        · constructor
          · intro hne
            exact absurd rfl hne
          · intro hge
            omega
        · intro hge
          omega
      · have he1 := paddedEMA_getElem?_ge 100 closes (by omega) (by omega) i
          (by omega) hi
        refine ⟨_, zipBars_getElem? dates closes _ _ i _ _ _ _ hdi hci he1 he2,
          ?_, ?_⟩
        · constructor
          · intro hne
            exact absurd rfl hne
          · intro hge
            omega
        · intro hge
          omega
    · have he1 := paddedEMA_getElem?_ge 100 closes (by omega) (by omega) i
        (by omega) hi
      have he2 := paddedEMA_getElem?_ge 200 closes (by omega) (by omega) i
        (by omega) hi
      refine ⟨_, zipBars_getElem? dates closes _ _ i _ _ _ _ hdi hci he1 he2,
        ?_, ?_⟩
      · constructor
        · intro _
          omega
        · intro _
          simp [perBarBump001]
      · intro _
        exact ⟨by simp, by simp⟩

/-- Witness for C1 amended at 200 constant closes and matching dates. -/
theorem C1_amended_gating_witness :
    200 ≤ ((List.range 200).map fun _ => (1 : ℚ)).length
      ∧ ((List.range 200).map fun i => toString i).length
          = ((List.range 200).map fun _ => (1 : ℚ)).length
      ∧ (zipBars ((List.range 200).map fun i => toString i)
          ((List.range 200).map fun _ => (1 : ℚ))
          (padEMA (emaCalculate 100 ((List.range 200).map fun _ => (1 : ℚ))) 100)
          (padEMA (emaCalculate 200 ((List.range 200).map fun _ => (1 : ℚ))) 200)).length
          = ((List.range 200).map fun _ => (1 : ℚ)).length :=
  ⟨by simp only [List.length_map, List.length_range]; omega,
   by simp only [List.length_map, List.length_range],
   (C1_amended_gating ((List.range 200).map fun i => toString i)
      ((List.range 200).map fun _ => (1 : ℚ))
      (by simp only [List.length_map, List.length_range]; omega)
      (by simp only [List.length_map, List.length_range])).1⟩
